import Mathlib

/-!
Verification of the Curve AI backend core (metrics ingestion and earnings
projection) against its natural-language specification.

Modelling conventions:
* Python floats are modelled as rationals (`ℚ`); the numeric claims of the
  specification are about exact arithmetic identities.
* Timestamps (`datetime`) are modelled as integers (`ℤ`, seconds); ordering
  and subtraction are all the code uses.
* A Python value that may be `None` is modelled as an `Option`.
* Database tables are modelled as lists of rows in insertion order; a
  SQLAlchemy `order_by` is modelled as a stable insertion sort on the key.
* Network calls are modelled by passing their outcome as an argument:
  `Except Unit _` for a call that may raise, `Option _` for a payload that
  may fail to arrive or parse.
-/

namespace CurveBackend

/-- Row of the `pool_metrics` table (src/apy/database.py, class PoolMetric).
The autoincrement `id` column is omitted: no modelled code reads it.
`pool_id` is kept optional because the ingestion task copies the incoming
dict value verbatim, which may be `None` for REST pools lacking id/address. -/
structure PoolMetric where
  pool_id : Option String
  apy : Option ℚ
  bribe : Option ℚ
  trading_fee : Option ℚ
  crv_reward : Option ℚ
  recorded_at : ℤ
  deriving DecidableEq, Repr

/-- The metric dict built by the providers and consumed by
`fetch_all_pool_metrics` (tasks.py).  Each field models one dict key read
via `metric.get(...)`: `crv_reward` is the key the on-chain provider emits
and the task persists, `crv` is the key the REST provider emits (and the
task never reads).  `recorded_at` models the optional incoming timestamp. -/
structure MetricDict where
  pool_id : Option String
  apy : Option ℚ
  bribe : Option ℚ
  trading_fee : Option ℚ
  crv_reward : Option ℚ
  crv : Option ℚ
  recorded_at : Option ℤ
  deriving DecidableEq, Repr

/-- src/apy/apy_calc.py, `calculate_compound_apy`: fold over the sequence,
skipping `None`, multiplying `total` by `1 + r/100` and recording whether
any usable value was seen; return `0.0` when none was. -/
def calculate_compound_apy (returns : List (Option ℚ)) : ℚ :=
  let acc := returns.foldl
    (fun (acc : ℚ × Bool) r =>
      match r with
      | none => acc
      | some v => (acc.1 * (1 + v / 100), true))
    (1, false)
  if acc.2 then (acc.1 - 1) * 100 else 0

/-- One step of the compounding fold, named for reuse in lemmas. -/
def compoundStep (acc : ℚ × Bool) (r : Option ℚ) : ℚ × Bool :=
  match r with
  | none => acc
  | some v => (acc.1 * (1 + v / 100), true)

lemma calculate_compound_apy_def (returns : List (Option ℚ)) :
    calculate_compound_apy returns =
      (if (returns.foldl compoundStep (1, false)).2
       then ((returns.foldl compoundStep (1, false)).1 - 1) * 100 else 0) := by
  rfl

/-- The paired fold decomposes: the running product is the fold of
`fun t r => t * (1 + r / 100)` over the non-null entries, and the
has-data flag is true iff the input held at least one non-null entry. -/
lemma compound_foldl_split (rs : List (Option ℚ)) (t : ℚ) (b : Bool) :
    rs.foldl compoundStep (t, b) =
      ((rs.filterMap id).foldl (fun u r => u * (1 + r / 100)) t,
       b || !(rs.filterMap id).isEmpty) := by
  induction rs generalizing t b with
  | nil => simp
  | cons r rs ih =>
    cases r with
    | none => simpa [compoundStep] using ih t b
    | some v =>
      simp only [List.foldl_cons, compoundStep, List.filterMap_cons_some, id]
      rw [ih]
      simp

/-- C1: calculate_compound_apy skips nulls, returns 0 when no usable value
exists, and otherwise returns (product of (1 + r/100) over usable entries in
input order, minus 1) times 100; in particular compound [10, 10] = 21,
compound [-10, -5] = -14.5, compound [none, 10] = 10, and the empty and
all-null inputs give 0. -/
theorem compound_apy_spec :
    (∀ rs : List (Option ℚ),
      calculate_compound_apy rs =
        if (rs.filterMap id).isEmpty then 0
        else ((rs.filterMap id).foldl (fun u r => u * (1 + r / 100)) 1 - 1) * 100)
    ∧ calculate_compound_apy [some 10, some 10] = 21
    ∧ calculate_compound_apy [some (-10), some (-5)] = -14.5
    ∧ calculate_compound_apy [none, some 10] = 10
    ∧ calculate_compound_apy [] = 0
    ∧ calculate_compound_apy [none, none] = 0 := by
  refine ⟨fun rs => ?_, by norm_num [calculate_compound_apy],
    by norm_num [calculate_compound_apy], by norm_num [calculate_compound_apy],
    by norm_num [calculate_compound_apy], by norm_num [calculate_compound_apy]⟩
  rw [calculate_compound_apy_def, compound_foldl_split]
  cases h : (rs.filterMap id).isEmpty <;> simp [h]

/-! ## REST provider (src/apy/curve.py) -/

/-- The value of the combined expression
`pool.get("apy") or pool.get("apyFormatted")` of a raw REST pool object:
either nothing truthy (key absent, null, falsy), a nested dict, or a scalar.
In `obj`, `total` models `.get("total")` (absent and null coincide) and
`sub` models the `"apy"` sub-key, distinguishing an absent key
(outer `none`, where `.get("apy", 0.0)` yields the default) from a key
present with a null value (inner `none`). -/
inductive ApyData where
  | absent : ApyData
  | obj (total : Option ℚ) (sub : Option (Option ℚ)) : ApyData
  | scalar (v : ℚ) : ApyData
  deriving DecidableEq, Repr

/-- One entry of a raw `gaugeRewards` list: `.get("token", "")` and
`.get("apy", 0.0)` (outer `none` = key absent, inner `none` = null). -/
structure RestReward where
  token : String
  apy : Option (Option ℚ)
  deriving DecidableEq, Repr

/-- One raw pool object of the REST payload, holding exactly the keys
`fetch_pool_data` reads. -/
structure RestPool where
  id : Option String
  address : Option String
  apy_data : ApyData
  bribeApy : Option ℚ
  tradingFee : Option ℚ
  fee : Option ℚ
  gaugeRewards : List RestReward
  deriving DecidableEq, Repr

/-- Python `x or y` on an optional number: `x` when present and nonzero
(truthy), else `y`. -/
def orQ (x : Option ℚ) (y : ℚ) : ℚ :=
  match x with
  | some v => if v = 0 then y else v
  | none => y

/-- Python `x or y` on an optional string: `x` when present and nonempty. -/
def orStr (x y : Option String) : Option String :=
  match x with
  | some s => if s = "" then y else some s
  | none => y

/-- The `apy` extraction of `fetch_pool_data`: starts at `0.0`; a dict
yields `get("total") or get("apy", 0.0)` (possibly null when the sub-key is
present but null), a number is used as is, anything else leaves `0.0`. -/
def extractApy (a : ApyData) : Option ℚ :=
  match a with
  | .absent => some 0
  | .scalar v => some v
  | .obj total sub =>
      let subVal : Option ℚ :=
        match sub with
        | none => some 0
        | some v => v
      match total with
      | some t => if t = 0 then subVal else some t
      | none => subVal

/-- Python `str.lower()`, character by character. -/
def pyLower (s : String) : String := String.mk (s.data.map Char.toLower)

/-- The `gaugeRewards` scan of `fetch_pool_data`: the first reward whose
token, lower-cased, equals "crv" supplies `crv`; otherwise `0.0`. -/
def scanCrv : List RestReward → Option ℚ
  | [] => some 0
  | r :: rest =>
      if pyLower r.token = "crv" then
        match r.apy with
        | none => some 0
        | some v => v
      else scanCrv rest

/-- src/apy/curve.py, `fetch_pool_data`: on any transport or parse failure
(`resp = none`) return the empty list — it never raises.  On success,
normalize each raw pool into the metric dict; note the CRV reward is stored
under the dict key `crv` (the `crv_reward` key is never set here). -/
def fetch_pool_data (resp : Option (List RestPool)) : List MetricDict :=
  match resp with
  | none => []
  | some data =>
      data.map (fun pool =>
        { pool_id := orStr pool.id pool.address
          apy := extractApy pool.apy_data
          bribe := some (orQ pool.bribeApy 0)
          trading_fee := some (orQ pool.tradingFee (orQ pool.fee 0))
          crv_reward := none
          crv := scanCrv pool.gaugeRewards
          recorded_at := none })

/-! ## Ingestion task (src/apy/tasks.py, fetch_all_pool_metrics) -/

/-- The row lookup predicate of the upsert:
`PoolMetric.pool_id == metric["pool_id"]` and
`PoolMetric.recorded_at == recorded_at`. -/
def rowMatches (p : Option String) (t : ℤ) (row : PoolMetric) : Bool :=
  decide (row.pool_id = p ∧ row.recorded_at = t)

/-- The row the task would persist for metric `m` at timestamp `t`:
pool id copied, the four mutable fields read via `metric.get`. -/
def mkRow (m : MetricDict) (t : ℤ) : PoolMetric :=
  { pool_id := m.pool_id
    apy := m.apy
    bribe := m.bribe
    trading_fee := m.trading_fee
    crv_reward := m.crv_reward
    recorded_at := t }

/-- Overwrite the mutable fields of the first row matching `(m.pool_id, t)`
(the `.first()` of the upsert query), leaving every other row unchanged. -/
def applyUpdate (m : MetricDict) (t : ℤ) : List PoolMetric → List PoolMetric
  | [] => []
  | row :: rest =>
      if rowMatches m.pool_id t row then
        { row with apy := m.apy, bribe := m.bribe,
                   trading_fee := m.trading_fee, crv_reward := m.crv_reward } :: rest
      else row :: applyUpdate m t rest

/-- One iteration of the upsert loop: look up the identity key
`(pool_id, recorded_at)` with `recorded_at` defaulting to `now`; update the
first match in place, else append a new row.  Returns the new store and the
(inserted, updated) contribution of this sample. -/
def upsertOne (now : ℤ) (store : List PoolMetric) (m : MetricDict) :
    List PoolMetric × ℕ × ℕ :=
  let t := m.recorded_at.getD now
  if store.any (rowMatches m.pool_id t) then
    (applyUpdate m t store, 0, 1)
  else
    (store ++ [mkRow m t], 1, 0)

/-- The full upsert loop over a batch, accumulating the inserted and
updated counts.  (The session has `autoflush=False`; for batches whose
identity keys are pairwise distinct — the only case any claim concerns —
pending-row visibility is irrelevant and this sequential write-through
model coincides with the SQLAlchemy session behaviour.) -/
def upsertAll (now : ℤ) (store : List PoolMetric) (ms : List MetricDict) :
    List PoolMetric × ℕ × ℕ :=
  ms.foldl
    (fun acc m =>
      let r := upsertOne now acc.1 m
      (r.1, acc.2.1 + r.2.1, acc.2.2 + r.2.2))
    (store, 0, 0)

/-- Seconds per day, for `timedelta(days=retention_days)`. -/
def secondsPerDay : ℤ := 86400

/-- src/apy/tasks.py, `fetch_all_pool_metrics`.  Inputs model the outside
world: `onchain` is the outcome of `fetch_onchain_pool_data()` (which raises
on failure), `rest` is the REST payload (`none` = transport/parse failure,
swallowed inside `fetch_pool_data`), `sweepRaises` injects a failure into
the retention delete.  Control flow: primary failure or empty result falls
back to the REST fetch; the upsert loop runs, then (when `retention_days >
0`) the sweep deletes rows older than `now - retention_days` days; all of it
commits together.  Any exception rolls the session back and re-raises as a
retry (`Except.error`); success returns the committed store with the
inserted and updated counts. -/
def fetch_all_pool_metrics (onchain : Except Unit (List MetricDict))
    (rest : Option (List RestPool)) (now retention_days : ℤ)
    (sweepRaises : Bool) (store : List PoolMetric) :
    Except Unit (List PoolMetric × ℕ × ℕ) :=
  let pool_metrics : List MetricDict :=
    match onchain with
    | .ok ms => if ms.isEmpty then fetch_pool_data rest else ms
    | .error _ => fetch_pool_data rest
  let r := upsertAll now store pool_metrics
  if 0 < retention_days then
    if sweepRaises then .error ()
    else
      .ok (r.1.filter (fun row =>
        decide (now - retention_days * secondsPerDay ≤ row.recorded_at)),
        r.2.1, r.2.2)
  else
    .ok r

/-- The stored series after a cycle: the committed store on success, the
rolled-back (unchanged) store on failure. -/
def cycleStore (onchain : Except Unit (List MetricDict))
    (rest : Option (List RestPool)) (now retention_days : ℤ)
    (sweepRaises : Bool) (store : List PoolMetric) : List PoolMetric :=
  match fetch_all_pool_metrics onchain rest now retention_days sweepRaises store with
  | .ok r => r.1
  | .error _ => store

/-- A minimal incoming sample carrying its own timestamp, used for concrete
instances in theorems. -/
def sampleAt (p : String) (t : ℤ) : MetricDict :=
  { pool_id := some p, apy := none, bribe := none, trading_fee := none,
    crv_reward := none, crv := none, recorded_at := some t }

/-- The identity key of an incoming sample, with its timestamp defaulting
to the cycle clock `now` exactly as in the upsert loop. -/
def keyOf (now : ℤ) (m : MetricDict) : Option String × ℤ :=
  (m.pool_id, m.recorded_at.getD now)

/-- The first row of the store matching key `(p, t)` is exactly `row`. -/
def FirstMatchIs (p : Option String) (t : ℤ) (row : PoolMetric) :
    List PoolMetric → Prop
  | [] => False
  | r :: rest =>
      if rowMatches p t r then r = row else FirstMatchIs p t row rest

lemma any_of_firstMatchIs {p t row} :
    ∀ {store : List PoolMetric}, FirstMatchIs p t row store →
      store.any (rowMatches p t) = true := by
  intro store
  induction store with
  | nil => intro h; exact absurd h (by simp [FirstMatchIs])
  | cons r rest ih =>
    intro h
    by_cases hm : rowMatches p t r
    · simp [List.any_cons, hm]
    · rw [FirstMatchIs, if_neg hm] at h
      simp [List.any_cons, ih h]

/-- Updating the mutable fields of a row does not change its identity key,
so the lookup predicate is unaffected. -/
lemma rowMatches_update (p : Option String) (t : ℤ) (m : MetricDict)
    (r : PoolMetric) :
    rowMatches p t { r with apy := m.apy, bribe := m.bribe,
                            trading_fee := m.trading_fee,
                            crv_reward := m.crv_reward } =
      rowMatches p t r := by
  simp [rowMatches]

/-- When the first matching row already holds exactly the incoming values,
the in-place update is the identity on the store. -/
lemma applyUpdate_of_firstMatch (m : MetricDict) (t : ℤ) :
    ∀ {store : List PoolMetric},
      FirstMatchIs m.pool_id t (mkRow m t) store →
      applyUpdate m t store = store := by
  intro store
  induction store with
  | nil => intro h; exact absurd h (by simp [FirstMatchIs])
  | cons r rest ih =>
    intro h
    by_cases hm : rowMatches m.pool_id t r
    · rw [FirstMatchIs, if_pos hm] at h
      rw [applyUpdate, if_pos hm, h]
      simp [mkRow]
    · rw [FirstMatchIs, if_neg hm] at h
      rw [applyUpdate, if_neg hm, ih h]

/-- After the update pass for `m`, the first row matching the key of `m`
holds exactly the values of `m`. -/
lemma firstMatch_after_applyUpdate (m : MetricDict) (t : ℤ) :
    ∀ {store : List PoolMetric},
      store.any (rowMatches m.pool_id t) = true →
      FirstMatchIs m.pool_id t (mkRow m t) (applyUpdate m t store) := by
  intro store
  induction store with
  | nil => intro h; simp at h
  | cons r rest ih =>
    intro h
    by_cases hm : rowMatches m.pool_id t r
    · rw [applyUpdate, if_pos hm, FirstMatchIs,
        if_pos (by rw [rowMatches_update]; exact hm)]
      have hk : r.pool_id = m.pool_id ∧ r.recorded_at = t := by
        simpa [rowMatches] using hm
      simp [mkRow, hk.1, hk.2]
    · rw [applyUpdate, if_neg hm, FirstMatchIs, if_neg hm]
      have h' : rest.any (rowMatches m.pool_id t) = true := by
        simpa [List.any_cons, hm] using h
      exact ih h'

/-- After appending the freshly inserted row for `m`, it is the first (and
only) row matching the key of `m`, provided the store held no match. -/
lemma firstMatch_after_insert (m : MetricDict) (t : ℤ) :
    ∀ {store : List PoolMetric},
      store.any (rowMatches m.pool_id t) = false →
      FirstMatchIs m.pool_id t (mkRow m t) (store ++ [mkRow m t]) := by
  intro store
  induction store with
  | nil =>
    intro _
    rw [List.nil_append, FirstMatchIs, if_pos (by simp [rowMatches, mkRow])]
  | cons r rest ih =>
    intro h
    have hr : rowMatches m.pool_id t r = false := by
      by_contra hc
      simp [List.any_cons, eq_true_of_ne_false hc] at h
    have h' : rest.any (rowMatches m.pool_id t) = false := by
      simpa [List.any_cons, hr] using h
    rw [List.cons_append, FirstMatchIs, if_neg (by simp [hr]), ]
    exact ih h'

/-- `upsertOne` for `m` leaves the first row matching the key of `m` equal
to the row built from `m`, whether it updated or inserted. -/
lemma firstMatch_after_upsertOne (now : ℤ) (store : List PoolMetric)
    (m : MetricDict) :
    FirstMatchIs m.pool_id (m.recorded_at.getD now)
      (mkRow m (m.recorded_at.getD now)) (upsertOne now store m).1 := by
  rw [upsertOne]
  by_cases h : store.any (rowMatches m.pool_id (m.recorded_at.getD now)) = true
  · simpa [h] using firstMatch_after_applyUpdate m (m.recorded_at.getD now) h
  · have h' : store.any (rowMatches m.pool_id (m.recorded_at.getD now)) = false :=
      Bool.eq_false_iff.mpr h
    simpa [h'] using firstMatch_after_insert m (m.recorded_at.getD now) h'

/-- An update pass for a different key preserves the first-match fact. -/
lemma firstMatch_preserved_applyUpdate (m' : MetricDict) (t' : ℤ)
    {p : Option String} {t : ℤ} {row : PoolMetric}
    (hrow : rowMatches m'.pool_id t' row = false) :
    ∀ {store : List PoolMetric}, FirstMatchIs p t row store →
      FirstMatchIs p t row (applyUpdate m' t' store) := by
  intro store
  induction store with
  | nil => intro h; exact absurd h (by simp [FirstMatchIs])
  | cons r rest ih =>
    intro h
    by_cases hpt : rowMatches p t r
    · rw [FirstMatchIs, if_pos hpt] at h
      subst h
      rw [applyUpdate, if_neg (by simp [hrow]), FirstMatchIs, if_pos hpt]
    · rw [FirstMatchIs, if_neg hpt] at h
      by_cases hm : rowMatches m'.pool_id t' r
      · rw [applyUpdate, if_pos hm, FirstMatchIs,
          if_neg (by rw [rowMatches_update]; simp [hpt])]
        exact h
      · rw [applyUpdate, if_neg hm, FirstMatchIs, if_neg hpt]
        exact ih h

/-- Appending rows at the end preserves the first-match fact. -/
lemma firstMatch_preserved_append {p : Option String} {t : ℤ}
    {row : PoolMetric} (l : List PoolMetric) :
    ∀ {store : List PoolMetric}, FirstMatchIs p t row store →
      FirstMatchIs p t row (store ++ l) := by
  intro store
  induction store with
  | nil => intro h; exact absurd h (by simp [FirstMatchIs])
  | cons r rest ih =>
    intro h
    by_cases hpt : rowMatches p t r
    · rw [FirstMatchIs, if_pos hpt] at h
      rw [List.cons_append, FirstMatchIs, if_pos hpt]
      exact h
    · rw [FirstMatchIs, if_neg hpt] at h
      rw [List.cons_append, FirstMatchIs, if_neg hpt]
      exact ih h

/-- Upserting a sample with a different identity key preserves the
first-match fact for the row built from `m`. -/
lemma firstMatch_preserved_upsertOne (now : ℤ) (m m' : MetricDict)
    {store : List PoolMetric}
    (hk : keyOf now m' ≠ keyOf now m)
    (h : FirstMatchIs m.pool_id (m.recorded_at.getD now)
      (mkRow m (m.recorded_at.getD now)) store) :
    FirstMatchIs m.pool_id (m.recorded_at.getD now)
      (mkRow m (m.recorded_at.getD now)) (upsertOne now store m').1 := by
  have hrow : rowMatches m'.pool_id (m'.recorded_at.getD now)
      (mkRow m (m.recorded_at.getD now)) = false := by
    simp only [rowMatches, mkRow, decide_eq_false_iff_not]
    intro hc
    exact hk (by simp [keyOf, hc.1, hc.2])
  rw [upsertOne]
  by_cases hany : store.any
      (rowMatches m'.pool_id (m'.recorded_at.getD now)) = true
  · simpa [hany] using firstMatch_preserved_applyUpdate m'
      (m'.recorded_at.getD now) hrow h
  · have h' : store.any
        (rowMatches m'.pool_id (m'.recorded_at.getD now)) = false :=
      Bool.eq_false_iff.mpr hany
    simpa [h'] using firstMatch_preserved_append _ h

/-- Unfolding `upsertAll` one sample at a time: the counts accumulate. -/
lemma upsertAll_go (now : ℤ) (ms : List MetricDict) :
    ∀ (s : List PoolMetric) (i u : ℕ),
      ms.foldl
        (fun acc m =>
          let r := upsertOne now acc.1 m
          (r.1, acc.2.1 + r.2.1, acc.2.2 + r.2.2))
        (s, i, u)
      = ((upsertAll now s ms).1, i + (upsertAll now s ms).2.1,
         u + (upsertAll now s ms).2.2) := by
  induction ms with
  | nil => intro s i u; simp [upsertAll]
  | cons m ms ih =>
    intro s i u
    rw [List.foldl_cons]
    rw [ih]
    have hrhs : upsertAll now s (m :: ms) =
        ((upsertAll now (upsertOne now s m).1 ms).1,
         (upsertOne now s m).2.1 + (upsertAll now (upsertOne now s m).1 ms).2.1,
         (upsertOne now s m).2.2 + (upsertAll now (upsertOne now s m).1 ms).2.2) := by
      show List.foldl _ _ (m :: ms) = _
      rw [List.foldl_cons, ih]
      simp
    rw [hrhs]
    simp
    omega

lemma upsertAll_cons (now : ℤ) (s : List PoolMetric) (m : MetricDict)
    (ms : List MetricDict) :
    upsertAll now s (m :: ms) =
      ((upsertAll now (upsertOne now s m).1 ms).1,
       (upsertOne now s m).2.1 + (upsertAll now (upsertOne now s m).1 ms).2.1,
       (upsertOne now s m).2.2 + (upsertAll now (upsertOne now s m).1 ms).2.2) := by
  show List.foldl _ _ (m :: ms) = _
  rw [List.foldl_cons, upsertAll_go]
  simp

/-- Upserting samples whose keys all differ from that of `m` preserves the
first-match fact for `m`. -/
lemma firstMatch_preserved_upsertAll (now : ℤ) (m : MetricDict) :
    ∀ (ms : List MetricDict) (store : List PoolMetric),
      (∀ m' ∈ ms, keyOf now m' ≠ keyOf now m) →
      FirstMatchIs m.pool_id (m.recorded_at.getD now)
        (mkRow m (m.recorded_at.getD now)) store →
      FirstMatchIs m.pool_id (m.recorded_at.getD now)
        (mkRow m (m.recorded_at.getD now)) (upsertAll now store ms).1 := by
  intro ms
  induction ms with
  | nil => intro store _ h; exact h
  | cons m' ms ih =>
    intro store hk h
    rw [upsertAll_cons]
    exact ih _ (fun x hx => hk x (List.mem_cons_of_mem m' hx))
      (firstMatch_preserved_upsertOne now m m' (hk m' (List.mem_cons_self m' ms)) h)

/-- After one run of `upsertAll` on a batch with pairwise distinct identity
keys, every sample of the batch is the first match for its own key. -/
lemma upsertAll_settles (now : ℤ) :
    ∀ (ms : List MetricDict) (store : List PoolMetric),
      ms.Pairwise (fun a b => keyOf now a ≠ keyOf now b) →
      ∀ m ∈ ms,
        FirstMatchIs m.pool_id (m.recorded_at.getD now)
          (mkRow m (m.recorded_at.getD now)) (upsertAll now store ms).1 := by
  intro ms
  induction ms with
  | nil => intro store _ m hm; exact absurd hm (List.not_mem_nil m)
  | cons m0 ms ih =>
    intro store hp m hm
    have hp' := (List.pairwise_cons.mp hp)
    rw [upsertAll_cons]
    rcases List.mem_cons.mp hm with hEq | hTail
    · subst hEq
      exact firstMatch_preserved_upsertAll now m ms _
        (fun x hx => (hp'.1 x hx).symm)
        (firstMatch_after_upsertOne now store m)
    · exact ih _ hp'.2 m hTail

/-- A second run of a batch whose every sample is already the first match
for its key leaves the store untouched and reports all-updates. -/
lemma upsertAll_noop (now : ℤ) :
    ∀ (ms : List MetricDict) (s : List PoolMetric),
      (∀ m ∈ ms,
        FirstMatchIs m.pool_id (m.recorded_at.getD now)
          (mkRow m (m.recorded_at.getD now)) s) →
      upsertAll now s ms = (s, 0, ms.length) := by
  intro ms
  induction ms with
  | nil => intro s _; rfl
  | cons m ms ih =>
    intro s h
    have hm := h m (List.mem_cons_self m ms)
    have hone : upsertOne now s m = (s, 0, 1) := by
      rw [upsertOne]
      rw [if_pos (any_of_firstMatchIs hm)]
      rw [applyUpdate_of_firstMatch m _ hm]
    rw [upsertAll_cons, hone]
    rw [ih s (fun x hx => h x (List.mem_cons_of_mem m hx))]
    simp [List.length_cons, Nat.add_comm]

/-- C4: running upsertAll twice with an identical batch of samples — each
carrying its own timestamp, with pairwise distinct (pool_id, recorded_at)
identity keys — leaves the stored series exactly as after the first run,
and the second run reports zero inserted rows and every sample as an
update, whatever the two cycle clocks are. -/
theorem upsertAll_idempotent (ms : List MetricDict) (now now2 : ℤ)
    (store : List PoolMetric)
    (hts : ∀ m ∈ ms, m.recorded_at.isSome)
    (hdist : ms.Pairwise
      (fun a b => ¬(a.pool_id = b.pool_id ∧ a.recorded_at = b.recorded_at))) :
    upsertAll now2 (upsertAll now store ms).1 ms =
      ((upsertAll now store ms).1, 0, ms.length) := by
  have hgetD : ∀ m ∈ ms, ∀ x y : ℤ,
      m.recorded_at.getD x = m.recorded_at.getD y := by
    intro m hm x y
    rcases Option.isSome_iff_exists.mp (hts m hm) with ⟨t, ht⟩
    simp [ht]
  have hkeys : ∀ z : ℤ, ms.Pairwise (fun a b => keyOf z a ≠ keyOf z b) := by
    intro z
    refine List.Pairwise.imp_of_mem ?_ hdist
    intro a b ha hb hab hc
    rcases Option.isSome_iff_exists.mp (hts a ha) with ⟨ta, hta⟩
    rcases Option.isSome_iff_exists.mp (hts b hb) with ⟨tb, htb⟩
    apply hab
    have h1 : a.pool_id = b.pool_id := by
      simpa [keyOf] using congrArg Prod.fst hc
    have h2 : a.recorded_at.getD z = b.recorded_at.getD z := by
      simpa [keyOf] using congrArg Prod.snd hc
    rw [hta, htb] at h2
    simp at h2
    exact ⟨h1, by rw [hta, htb, h2]⟩
  have hsettled := upsertAll_settles now ms store (hkeys now)
  refine upsertAll_noop now2 ms _ ?_
  intro m hm
  have := hsettled m hm
  rwa [hgetD m hm now now2] at this

/-- C4 witness: a concrete two-sample batch with distinct keys, upserted
twice into an empty store. -/
theorem upsertAll_idempotent_example :
    upsertAll 7 (upsertAll 3 [] [sampleAt "p1" 10, sampleAt "p2" 20]).1
        [sampleAt "p1" 10, sampleAt "p2" 20] =
      ((upsertAll 3 [] [sampleAt "p1" 10, sampleAt "p2" 20]).1, 0, 2) :=
  upsertAll_idempotent [sampleAt "p1" 10, sampleAt "p2" 20] 3 7 []
    (by intro m hm; fin_cases hm <;> rfl)
    (by simp [sampleAt])

/-- C10: the dedupe policy of the upsert is exact match on
(pool_id, recorded_at): a sample is counted as an update (insert count 0)
exactly when a stored row carries the identical key, and two same-pool
samples whose timestamps differ by any nonzero amount — however small —
are kept as two distinct rows. -/
theorem upsert_dedupe_exact_match :
    (∀ (now : ℤ) (store : List PoolMetric) (m : MetricDict),
      (upsertOne now store m).2.1 = 0 ↔
        ∃ row ∈ store, row.pool_id = m.pool_id ∧
          row.recorded_at = m.recorded_at.getD now)
    ∧ (∀ (p : String) (t d : ℤ), d ≠ 0 →
        (upsertAll 0 [] [sampleAt p t, sampleAt p (t + d)]).1 =
          [mkRow (sampleAt p t) t, mkRow (sampleAt p (t + d)) (t + d)] ∧
        (upsertAll 0 [] [sampleAt p t, sampleAt p (t + d)]).2.1 = 2) := by
  constructor
  · intro now store m
    rw [upsertOne]
    by_cases h : store.any (rowMatches m.pool_id (m.recorded_at.getD now)) = true
    · simp only [h, if_true]
      constructor
      · intro _
        rcases List.any_eq_true.mp h with ⟨row, hrow, hmt⟩
        exact ⟨row, hrow, by simpa [rowMatches] using hmt⟩
      · intro _; trivial
    · simp only [h, if_false]
      constructor
      · intro hc; exact absurd hc one_ne_zero
      · intro ⟨row, hrow, h1, h2⟩
        exact absurd (List.any_eq_true.mpr
          ⟨row, hrow, by simp [rowMatches, h1, h2]⟩) h
  · intro p t d hd
    have hne : ¬(t = t + d) := by omega
    constructor
    · rw [upsertAll_cons]
      simp [upsertAll, upsertOne, sampleAt, rowMatches, mkRow, hne]
    · rw [upsertAll_cons]
      simp [upsertAll, upsertOne, sampleAt, rowMatches, mkRow, hne]

/-- C10 witness: a one-minute timestamp difference (well inside a
five-minute window) still yields two distinct rows. -/
theorem upsert_dedupe_exact_match_example :
    (upsertAll 0 [] [sampleAt "p" 100, sampleAt "p" 160]).1 =
      [mkRow (sampleAt "p" 100) 100, mkRow (sampleAt "p" 160) 160] ∧
    (upsertAll 0 [] [sampleAt "p" 100, sampleAt "p" 160]).2.1 = 2 := by
  have h := upsert_dedupe_exact_match.2 "p" 100 60 (by norm_num)
  simpa using h

/-- C3 counterexample: with the primary provider raising and the secondary
failing too (transport error), the cycle does NOT fail — the task returns
success with zero samples written, because the secondary swallows its own
failure and yields an empty list, which the task stores without error. -/
theorem both_sources_fail_cycle_succeeds :
    fetch_all_pool_metrics (Except.error ()) none 0 30 false [] =
      Except.ok ([], 0, 0) := by
  rfl

/-- C3 amended: when the primary provider raises and the secondary fails
(returns nothing), the ingestion task completes successfully with zero
inserted and zero updated samples — the failure does not propagate, so the
retry never applies — and the stored series gains no sample (it can only
shrink through the retention sweep); the chain never synthesizes data. -/
theorem both_sources_fail_no_samples (now retention_days : ℤ)
    (store : List PoolMetric) :
    ∃ s, fetch_all_pool_metrics (Except.error ()) none now retention_days
        false store = Except.ok (s, 0, 0) ∧ s.Sublist store := by
  by_cases h : 0 < retention_days
  · refine ⟨store.filter (fun row =>
        decide (now - retention_days * secondsPerDay ≤ row.recorded_at)),
      ?_, List.filter_sublist store⟩
    simp only [fetch_all_pool_metrics]
    rw [if_pos h]
    rfl
  · refine ⟨store, ?_, List.Sublist.refl store⟩
    simp only [fetch_all_pool_metrics]
    rw [if_neg h]
    rfl

/-- C8 counterexample: fetch and upsert succeed (one sample from the
primary), the retention sweep raises — and the whole cycle fails with a
retry, the store reverting to its pre-cycle (empty) state instead of
keeping the upserted sample. -/
theorem sweep_failure_fails_cycle :
    fetch_all_pool_metrics (Except.ok [sampleAt "p" 5]) none 0 30 true [] =
      Except.error () ∧
    cycleStore (Except.ok [sampleAt "p" 5]) none 0 30 true [] = [] := by
  constructor <;> rfl

/-- C8 amended: the retention sweep runs inside the same transaction as the
upsert, before the commit; if it raises (with a positive retention window),
the entire cycle fails and is retried, and the rollback discards the
upserts of the cycle, leaving the stored series exactly as before. -/
theorem sweep_failure_rolls_back (onchain : Except Unit (List MetricDict))
    (rest : Option (List RestPool)) (now retention_days : ℤ)
    (store : List PoolMetric) (h : 0 < retention_days) :
    fetch_all_pool_metrics onchain rest now retention_days true store =
      Except.error () ∧
    cycleStore onchain rest now retention_days true store = store := by
  have h1 : fetch_all_pool_metrics onchain rest now retention_days true store =
      Except.error () := by
    simp only [fetch_all_pool_metrics]
    rw [if_pos h]
    rfl
  exact ⟨h1, by rw [cycleStore, h1]⟩

/-- C8 amended witness. -/
theorem sweep_failure_rolls_back_example :
    fetch_all_pool_metrics (Except.ok [sampleAt "q" 9]) none 100 30 true
        [mkRow (sampleAt "q" 9) 9] = Except.error () ∧
    cycleStore (Except.ok [sampleAt "q" 9]) none 100 30 true
        [mkRow (sampleAt "q" 9) 9] = [mkRow (sampleAt "q" 9) 9] :=
  sweep_failure_rolls_back (Except.ok [sampleAt "q" 9]) none 100 30
    [mkRow (sampleAt "q" 9) 9] (by norm_num)

/-- A concrete raw REST pool: id "p1", scalar apy 7, no bribe or fee keys,
and one gauge reward whose token is the upper-cased symbol "CRV" with
apy 5. -/
def testRestPool : RestPool :=
  { id := some "p1", address := none, apy_data := .scalar 7,
    bribeApy := none, tradingFee := none, fee := none,
    gaugeRewards := [{ token := "CRV", apy := some (some 5) }] }

/-- C9: the REST provider does find the CRV gauge reward (case-insensitive
token match yields 5 under the dict key `crv`), but the persisted row
stores `crv_reward = none` (null) because the ingestion task reads the key
`crv_reward`, which the REST provider never sets — so the numeric field is
stored as null, not defaulted to 0. -/
theorem rest_crv_reward_stored_null :
    (fetch_pool_data (some [testRestPool])).map MetricDict.crv = [some 5] ∧
    fetch_all_pool_metrics (Except.error ()) (some [testRestPool]) 0 0 false []
      = Except.ok
          ([{ pool_id := some "p1", apy := some 7, bribe := some 0,
              trading_fee := some 0, crv_reward := none,
              recorded_at := 0 }], 1, 0) := by
  constructor <;> rfl

/-! ## Service layer (src/apy/services.py) -/

/-- The exceptions flowing through `_handle_service_error`: a SQLAlchemy
error, or an `HTTPException` carrying a status code and a detail string. -/
inductive Exc where
  | sqlalchemy : Exc
  | httpExc (status : ℕ) (detail : String) : Exc
  deriving DecidableEq, Repr

/-- Python `str(exc)` for the exceptions above (status-code formatting of
`HTTPException`; the exact text for a SQLAlchemy error is immaterial, as
that branch is never formatted by the handler). -/
def excStr : Exc → String
  | .sqlalchemy => "sqlalchemy error"
  | .httpExc s d => Nat.repr s ++ ": " ++ d

/-- src/apy/services.py, `_handle_service_error`: roll back, then re-raise
a SQLAlchemy error as HTTP 500 "Database error" and ANY other exception —
including a deliberately raised `HTTPException` — as HTTP 400 with
`str(exc)` as detail. -/
def handle_service_error : Exc → Exc
  | .sqlalchemy => .httpExc 500 "Database error"
  | e => .httpExc 400 (excStr e)

/-- Ascending `order_by(recorded_at)`. -/
def recordedLe (a b : PoolMetric) : Prop := a.recorded_at ≤ b.recorded_at

/-- Descending `order_by(recorded_at.desc())`. -/
def recordedGe (a b : PoolMetric) : Prop := b.recorded_at ≤ a.recorded_at

instance : DecidableRel recordedLe := fun a b => Int.decLe _ _

instance : DecidableRel recordedGe := fun a b => Int.decLe _ _

instance : IsTotal PoolMetric recordedLe :=
  ⟨fun a b => Int.le_total a.recorded_at b.recorded_at⟩

instance : IsTrans PoolMetric recordedLe :=
  ⟨fun _ _ _ h1 h2 => le_trans h1 h2⟩

instance : IsTotal PoolMetric recordedGe :=
  ⟨fun a b => Int.le_total b.recorded_at a.recorded_at⟩

instance : IsTrans PoolMetric recordedGe :=
  ⟨fun _ _ _ h1 h2 => le_trans h2 h1⟩

/-- Stable ascending sort on `recorded_at` (SQL `ORDER BY recorded_at`). -/
def sortAsc (l : List PoolMetric) : List PoolMetric := l.insertionSort recordedLe

/-- Stable descending sort on `recorded_at`. -/
def sortDesc (l : List PoolMetric) : List PoolMetric := l.insertionSort recordedGe

/-- The `filter(PoolMetric.pool_id == pool_id)` rows, in table order. -/
def poolRows (metrics : List PoolMetric) (pool : String) : List PoolMetric :=
  metrics.filter (fun r => decide (r.pool_id = some pool))

/-- The ascending apy history of a pool, exactly as queried by
`calculate_total_earning`: pool rows ordered by `recorded_at`, projected to
the (nullable) `apy` column. -/
def apyHistory (metrics : List PoolMetric) (pool : String) : List (Option ℚ) :=
  (sortAsc (poolRows metrics pool)).map PoolMetric.apy

/-- The `order_by(recorded_at.desc()).first()` lookup of the latest
sample. -/
def latestMetric (metrics : List PoolMetric) (pool : String) :
    Option PoolMetric :=
  (sortDesc (poolRows metrics pool)).head?

/-- The optional recorded_at range filter of the history query. -/
def rangeFilter (start stop : Option ℤ) (r : PoolMetric) : Bool :=
  (match start with
   | some s => decide (s ≤ r.recorded_at)
   | none => true) &&
  (match stop with
   | some e => decide (r.recorded_at ≤ e)
   | none => true)

/-- `start and end and start > end` (datetimes are always truthy). -/
def invalidRange (start stop : Option ℤ) : Bool :=
  match start, stop with
  | some s, some e => decide (e < s)
  | _, _ => false

/-- src/apy/services.py, `get_pool_apy_history`: inside the session, an
invalid range raises HTTP 400 and an empty result raises HTTP 404; the
blanket `except Exception` then routes every raised exception through
`_handle_service_error` before it reaches the caller. -/
def get_pool_apy_history (metrics : List PoolMetric) (pool : String)
    (start stop : Option ℤ) : Except Exc (List PoolMetric) :=
  let inner : Except Exc (List PoolMetric) :=
    if invalidRange start stop then
      .error (.httpExc 400 "start must be before end")
    else
      let rows := sortAsc ((poolRows metrics pool).filter (rangeFilter start stop))
      if rows.isEmpty then .error (.httpExc 404 "Pool not found")
      else .ok rows
  match inner with
  | .ok v => .ok v
  | .error e => .error (handle_service_error e)

/-- Row of the `user_positions` table. -/
structure UserPosition where
  user_id : String
  pool_id : String
  amount : ℚ
  last_updated : ℤ
  deriving DecidableEq, Repr

/-- The result dict of `calculate_total_earning`. -/
structure EarningResult where
  user_id : String
  pool_id : String
  total_amount : ℚ
  projected_earning : ℚ
  current_apr : ℚ
  deriving DecidableEq, Repr

/-- The `(user_id, pool_id)` position lookup predicate. -/
def posMatches (user pool : String) (p : UserPosition) : Bool :=
  decide (p.user_id = user ∧ p.pool_id = pool)

/-- Mutate the first matching position in place:
`position.amount += amount; position.last_updated = now`. -/
def bumpFirst (user pool : String) (amount : ℚ) (now : ℤ) :
    List UserPosition → List UserPosition
  | [] => []
  | p :: rest =>
      if posMatches user pool p then
        { p with amount := p.amount + amount, last_updated := now } :: rest
      else p :: bumpFirst user pool amount now rest

/-- The position read-modify-write of `calculate_total_earning`: update the
first `(user_id, pool_id)` row if one exists, else append a fresh one. -/
def applyDeposit (positions : List UserPosition) (user pool : String)
    (amount : ℚ) (now : ℤ) : List UserPosition :=
  match positions.find? (posMatches user pool) with
  | some _ => bumpFirst user pool amount now positions
  | none => positions ++
      [{ user_id := user, pool_id := pool, amount := amount,
         last_updated := now }]

/-- `position.amount` after the read-modify-write. -/
def newTotal (positions : List UserPosition) (user pool : String)
    (amount : ℚ) : ℚ :=
  match positions.find? (posMatches user pool) with
  | some p => p.amount + amount
  | none => amount

/-- src/apy/services.py, `calculate_total_earning`.  The position update is
committed FIRST (`session.commit()` on line 138); only then do the history
read, the compounding, and the latest-sample read run.  `readRaises`
injects a SQLAlchemy failure into those later reads: the handler rolls back
(a no-op for the already committed position) and surfaces HTTP 500, with
the committed positions kept.  Returns the surfaced result together with
the persistent position table. -/
def calculate_total_earning (positions : List UserPosition)
    (metrics : List PoolMetric) (user pool : String) (amount : ℚ) (now : ℤ)
    (readRaises : Bool) : Except Exc EarningResult × List UserPosition :=
  let positions2 := applyDeposit positions user pool amount now
  if readRaises then (.error (handle_service_error .sqlalchemy), positions2)
  else
    let total := newTotal positions user pool amount
    let apy_series := (apyHistory metrics pool).filterMap id
    let compounded := calculate_compound_apy (apy_series.map some)
    let projected := total * (compounded / 100)
    let apr := ((latestMetric metrics pool).bind PoolMetric.apy).getD 0
    (.ok { user_id := user, pool_id := pool, total_amount := total,
           projected_earning := projected, current_apr := apr },
     positions2)

/-- The `/users/{user_id}/earnings` endpoint (src/apy/api.py): the request
schema validates `amount` with `confloat(gt=0)`, so a non-positive amount
is rejected by FastAPI with a 422 validation error before the service ever
runs; otherwise the service is called. -/
def post_user_earnings (positions : List UserPosition)
    (metrics : List PoolMetric) (user pool : String) (amount : ℚ) (now : ℤ)
    (readRaises : Bool) : Except Exc EarningResult × List UserPosition :=
  if amount ≤ 0 then
    (.error (.httpExc 422 "Input should be greater than 0"), positions)
  else
    calculate_total_earning positions metrics user pool amount now readRaises

/-- Filtering the nulls out before compounding changes nothing: the
calculator skips them anyway. -/
lemma compound_filterMap (l : List (Option ℚ)) :
    calculate_compound_apy ((l.filterMap id).map some) =
      calculate_compound_apy l := by
  rw [calculate_compound_apy_def, calculate_compound_apy_def,
    compound_foldl_split, compound_foldl_split]
  have h : ((l.filterMap id).map some).filterMap id = l.filterMap id := by
    simp
  rw [h]

/-- The head of the descending sort is a sample of maximal `recorded_at`. -/
lemma head_sortDesc_max (l : List PoolMetric) (hne : l ≠ []) :
    ∃ m, (sortDesc l).head? = some m ∧ m ∈ l ∧
      ∀ m2 ∈ l, m2.recorded_at ≤ m.recorded_at := by
  cases hsort : sortDesc l with
  | nil =>
    exfalso
    apply hne
    have hlen := (List.perm_insertionSort recordedGe l).length_eq
    rw [sortDesc] at hsort
    rw [hsort] at hlen
    exact List.length_eq_zero.mp hlen.symm
  | cons m tl =>
    have hmem : m ∈ l := by
      have hm : m ∈ sortDesc l := by
        rw [hsort]; exact List.mem_cons_self m tl
      rw [sortDesc] at hm
      exact (List.mem_insertionSort recordedGe).mp hm
    refine ⟨m, rfl, hmem, ?_⟩
    intro m2 hm2
    have hm2s : m2 ∈ sortDesc l := by
      rw [sortDesc]; exact (List.mem_insertionSort recordedGe).mpr hm2
    rw [hsort] at hm2s
    rcases List.mem_cons.mp hm2s with h | h
    · rw [h]
    · have hs : List.Sorted recordedGe (sortDesc l) :=
        List.sorted_insertionSort recordedGe l
      rw [hsort] at hs
      exact List.rel_of_sorted_cons hs m2 h

/-- The stored history of the end-to-end example: pool p1 with apy series
[10, 10] at ascending timestamps. -/
def e2eMetrics : List PoolMetric :=
  [{ pool_id := some "p1", apy := some 10, bribe := none, trading_fee := none,
     crv_reward := none, recorded_at := 1 },
   { pool_id := some "p1", apy := some 10, bribe := none, trading_fee := none,
     crv_reward := none, recorded_at := 2 }]

/-- C2: a deposit with a reachable store always succeeds, returning
total_amount equal to the updated position amount, projected_earning equal
to new_total_amount times the compounded ascending apy history over 100,
and current_apr equal to the apy of a sample with the greatest recorded_at
(0 when the pool has no sample or the latest apy is null, covered by
`Option.getD`); depositing 100 against the history [10, 10] yields
projected_earning 21 and current_apr 10. -/
theorem record_deposit_projection :
    (∀ (positions : List UserPosition) (metrics : List PoolMetric)
        (user pool : String) (amount : ℚ) (now : ℤ),
      ∃ r : EarningResult,
        (calculate_total_earning positions metrics user pool amount now
          false).1 = Except.ok r ∧
        r.total_amount = newTotal positions user pool amount ∧
        r.projected_earning =
          r.total_amount * calculate_compound_apy (apyHistory metrics pool)
            / 100 ∧
        (poolRows metrics pool = [] → r.current_apr = 0) ∧
        (poolRows metrics pool ≠ [] →
          ∃ m ∈ poolRows metrics pool,
            (∀ m2 ∈ poolRows metrics pool,
              m2.recorded_at ≤ m.recorded_at) ∧
            r.current_apr = m.apy.getD 0))
    ∧ (calculate_total_earning [] e2eMetrics "u1" "p1" 100 5 false).1 =
        Except.ok { user_id := "u1", pool_id := "p1", total_amount := 100,
                    projected_earning := 21, current_apr := 10 } := by
  constructor
  · intro positions metrics user pool amount now
    refine ⟨_, rfl, rfl, ?_, ?_, ?_⟩
    · show newTotal positions user pool amount *
        (calculate_compound_apy
          (((apyHistory metrics pool).filterMap id).map some) / 100) = _
      rw [compound_filterMap, mul_div_assoc]
    · intro h
      show ((latestMetric metrics pool).bind PoolMetric.apy).getD 0 = 0
      simp [latestMetric, h, sortDesc, List.insertionSort]
    · intro h
      obtain ⟨m, hhead, hmem, hmax⟩ :=
        head_sortDesc_max (poolRows metrics pool) h
      refine ⟨m, hmem, hmax, ?_⟩
      show ((latestMetric metrics pool).bind PoolMetric.apy).getD 0 = _
      rw [latestMetric.eq_def, hhead]
      rfl
  · have ht : newTotal [] "u1" "p1" 100 = (100 : ℚ) := rfl
    have ha : ((apyHistory e2eMetrics "p1").filterMap id).map some
        = [some 10, some 10] := rfl
    have hc : calculate_compound_apy [some 10, some 10] = (21 : ℚ) := by
      norm_num [calculate_compound_apy]
    have hl : ((latestMetric e2eMetrics "p1").bind PoolMetric.apy).getD 0
        = (10 : ℚ) := rfl
    show (Except.ok
        ({ user_id := "u1", pool_id := "p1",
           total_amount := newTotal [] "u1" "p1" 100,
           projected_earning := newTotal [] "u1" "p1" 100 *
             (calculate_compound_apy
               (((apyHistory e2eMetrics "p1").filterMap id).map some) / 100),
           current_apr :=
             ((latestMetric e2eMetrics "p1").bind PoolMetric.apy).getD 0 }
          : EarningResult) : Except Exc EarningResult) = _
    rw [ht, ha, hc, hl]
    norm_num

/-- C2 witness: the end-to-end deposit, with the maximality hypothesis on
the latest sample discharged on the concrete two-sample history. -/
theorem record_deposit_projection_example :
    ∃ r : EarningResult,
      (calculate_total_earning [] e2eMetrics "u1" "p1" 100 5 false).1 =
        Except.ok r ∧
      ∃ m ∈ poolRows e2eMetrics "p1",
        (∀ m2 ∈ poolRows e2eMetrics "p1", m2.recorded_at ≤ m.recorded_at) ∧
        r.current_apr = m.apy.getD 0 := by
  obtain ⟨r, h1, _, _, _, h5⟩ :=
    record_deposit_projection.1 [] e2eMetrics "u1" "p1" 100 5
  exact ⟨r, h1, h5 (by decide)⟩

/-- C5: a pool with zero stored samples in the requested range does raise
the 404 inside the session, but the blanket exception handler re-wraps it
and the caller receives HTTP 400 (the caller-input class) with the
stringified 404 as detail — not a not-found error. -/
theorem history_notfound_surfaced_as_400 :
    get_pool_apy_history [] "p1" none none =
      Except.error (Exc.httpExc 400 "404: Pool not found") := by
  rfl

/-- C6: the endpoint rejects a non-positive deposit amount before the
service runs — the call fails with the validation (invalid-amount) error
and the position table is untouched — while any positive amount succeeds
when the store is reachable. -/
theorem deposit_amount_gate :
    (∀ (positions : List UserPosition) (metrics : List PoolMetric)
        (user pool : String) (amount : ℚ) (now : ℤ) (readRaises : Bool),
      amount ≤ 0 →
        post_user_earnings positions metrics user pool amount now readRaises =
          (Except.error (Exc.httpExc 422 "Input should be greater than 0"),
           positions))
    ∧ (∀ (positions : List UserPosition) (metrics : List PoolMetric)
        (user pool : String) (amount : ℚ) (now : ℤ),
      0 < amount →
        ∃ r : EarningResult,
          (post_user_earnings positions metrics user pool amount now
            false).1 = Except.ok r) := by
  constructor
  · intro positions metrics user pool amount now readRaises h
    simp only [post_user_earnings]
    rw [if_pos h]
  · intro positions metrics user pool amount now h
    simp only [post_user_earnings]
    rw [if_neg (not_le.mpr h)]
    exact ⟨_, rfl⟩

/-- C6 witness: a deposit of -5 is rejected with untouched positions; a
deposit of 5 succeeds. -/
theorem deposit_amount_gate_example :
    (post_user_earnings [] [] "u" "p" (-5) 0 false =
      (Except.error (Exc.httpExc 422 "Input should be greater than 0"), []))
    ∧ ∃ r : EarningResult,
        (post_user_earnings [] [] "u" "p" 5 0 false).1 = Except.ok r :=
  ⟨deposit_amount_gate.1 [] [] "u" "p" (-5) 0 false (by norm_num),
   deposit_amount_gate.2 [] [] "u" "p" 5 0 (by norm_num)⟩

/-- C7 counterexample: a first deposit of 100 during which the post-commit
history read fails surfaces an error to the caller, yet a position row has
been created and persists — the persistent state is NOT unchanged on
error. -/
theorem deposit_error_with_state_change :
    (calculate_total_earning [] [] "u" "p" 100 1 true).1 =
      Except.error (Exc.httpExc 500 "Database error") ∧
    (calculate_total_earning [] [] "u" "p" 100 1 true).2 =
      [{ user_id := "u", pool_id := "p", amount := 100, last_updated := 1 }] ∧
    (calculate_total_earning [] [] "u" "p" 100 1 true).2 ≠ [] := by
  exact ⟨rfl, rfl, by decide⟩

/-- C7 amended: the position read-modify-write commits before the
projection reads; a failure of any later step (history read, compounding
input, latest-sample read) surfaces HTTP 500 to the caller, but the
positions stand exactly as after a fully successful call — the deposit
persists, only the projection is lost. -/
theorem deposit_commit_precedes_reads (positions : List UserPosition)
    (metrics : List PoolMetric) (user pool : String) (amount : ℚ)
    (now : ℤ) :
    (calculate_total_earning positions metrics user pool amount now true).1 =
      Except.error (Exc.httpExc 500 "Database error") ∧
    (calculate_total_earning positions metrics user pool amount now true).2 =
      (calculate_total_earning positions metrics user pool amount now
        false).2 := by
  exact ⟨rfl, rfl⟩

end CurveBackend
